import Mathlib

namespace Plinko

/-- Truncate to an unsigned 32-bit value. -/
def u32 (x : Nat) : Nat := x % 4294967296

/-- Rotate a 32-bit word right by `n` bits. -/
def rotr (n x : Nat) : Nat := u32 ((x >>> n) ||| (x <<< (32 - n)))

/-- Bitwise complement of a 32-bit word. -/
def wnot (x : Nat) : Nat := 4294967295 ^^^ x

def bsig0 (x : Nat) : Nat := rotr 2 x ^^^ rotr 13 x ^^^ rotr 22 x
def bsig1 (x : Nat) : Nat := rotr 6 x ^^^ rotr 11 x ^^^ rotr 25 x
def ssig0 (x : Nat) : Nat := rotr 7 x ^^^ rotr 18 x ^^^ (x >>> 3)
def ssig1 (x : Nat) : Nat := rotr 17 x ^^^ rotr 19 x ^^^ (x >>> 10)

def chFn (e f g : Nat) : Nat := (e &&& f) ^^^ (wnot e &&& g)
def majFn (a b c : Nat) : Nat := (a &&& b) ^^^ (a &&& c) ^^^ (b &&& c)

/-- The 64 SHA-256 round constants of FIPS 180-4, written in decimal. -/
def K256 : List Nat :=
  [1116352408, 1899447441, 3049323471, 3921009573, 961987163, 1508970993,
   2453635748, 2870763221, 3624381080, 310598401, 607225278, 1426881987,
   1925078388, 2162078206, 2614888103, 3248222580, 3835390401, 4022224774,
   264347078, 604807628, 770255983, 1249150122, 1555081692, 1996064986,
   2554220882, 2821834349, 2952996808, 3210313671, 3336571891, 3584528711,
   113926993, 338241895, 666307205, 773529912, 1294757372, 1396182291,
   1695183700, 1986661051, 2177026350, 2456956037, 2730485921, 2820302411,
   3259730800, 3345764771, 3516065817, 3600352804, 4094571909, 275423344,
   430227734, 506948616, 659060556, 883997877, 958139571, 1322822218,
   1537002063, 1747873779, 1955562222, 2024104815, 2227730452, 2361852424,
   2428436474, 2756734187, 3204031479, 3329325298]

/-- Initial SHA-256 hash state of FIPS 180-4, written in decimal. -/
def H256 : List Nat :=
  [1779033703, 3144134277, 1013904242, 2773480762,
   1359893119, 2600822924, 528734635, 1541459225]

/-- Big-endian byte serialization of `v` into `k` bytes. -/
def toBytesBE : Nat → Nat → List Nat
  | 0, _ => []
  | k + 1, v => toBytesBE k (v >>> 8) ++ [v % 256]

/-- SHA-256 padding: append 0x80, zero bytes, and the 64-bit big-endian bit length. -/
def padMessage (msg : List Nat) : List Nat :=
  let len := msg.length
  let padZeros := (120 - ((len + 1) % 64)) % 64
  msg ++ [0x80] ++ List.replicate padZeros 0 ++ toBytesBE 8 (8 * len)

/-- Group bytes into big-endian 32-bit words. -/
def bytesToWords : List Nat → List Nat
  | a :: b :: c :: d :: rest => (((a * 256 + b) * 256 + c) * 256 + d) :: bytesToWords rest
  | _ => []

/-- Split a word list into chunks of 16 words; the fuel bounds the number of chunks. -/
def chunks16F : Nat → List Nat → List (List Nat)
  | 0, _ => []
  | _, [] => []
  | fuel + 1, w :: rest => (w :: rest.take 15) :: chunks16F fuel (rest.drop 15)

/-- Split a word list into chunks of 16 words. -/
def chunks16 (ws : List Nat) : List (List Nat) := chunks16F ws.length ws

/-- Extend the message schedule; `acc` holds the words produced so far, most recent first. -/
def extendSchedule : Nat → List Nat → List Nat
  | 0, acc => acc.reverse
  | k + 1, acc =>
      let w2 := acc.getD 1 0
      let w7 := acc.getD 6 0
      let w15 := acc.getD 14 0
      let w16 := acc.getD 15 0
      extendSchedule k (u32 (ssig1 w2 + w7 + ssig0 w15 + w16) :: acc)

/-- The full 64-word message schedule of a 16-word chunk. -/
def schedule (chunk : List Nat) : List Nat := extendSchedule 48 chunk.reverse

/-- One SHA-256 compression round. -/
def compressRound (st : Nat × Nat × Nat × Nat × Nat × Nat × Nat × Nat) (kw : Nat × Nat) :
    Nat × Nat × Nat × Nat × Nat × Nat × Nat × Nat :=
  let (a, b, c, d, e, f, g, h) := st
  let (k, w) := kw
  let t1 := u32 (h + bsig1 e + chFn e f g + k + w)
  let t2 := u32 (bsig0 a + majFn a b c)
  (u32 (t1 + t2), a, b, c, u32 (d + t1), e, f, g)

/-- Process one 512-bit chunk, updating the running hash state. -/
def processChunk (hs : List Nat) (chunk : List Nat) : List Nat :=
  let ws := schedule chunk
  let init := (hs.getD 0 0, hs.getD 1 0, hs.getD 2 0, hs.getD 3 0,
               hs.getD 4 0, hs.getD 5 0, hs.getD 6 0, hs.getD 7 0)
  let (a, b, c, d, e, f, g, h) := (K256.zip ws).foldl compressRound init
  [u32 (hs.getD 0 0 + a), u32 (hs.getD 1 0 + b), u32 (hs.getD 2 0 + c), u32 (hs.getD 3 0 + d),
   u32 (hs.getD 4 0 + e), u32 (hs.getD 5 0 + f), u32 (hs.getD 6 0 + g), u32 (hs.getD 7 0 + h)]

/-- SHA-256 of a byte string, as eight 32-bit words. -/
def sha256Words (msg : List Nat) : List Nat :=
  (chunks16 (bytesToWords (padMessage msg))).foldl processChunk H256

/-- Lowercase hex digit for a nibble, as in Node's hex digest encoding. -/
def hexChar (d : Nat) : Char := if d < 10 then Char.ofNat (48 + d) else Char.ofNat (87 + d)

/-- The eight lowercase hex characters of a 32-bit word, big-endian. -/
def wordHexChars (w : Nat) : List Char :=
  [hexChar (w >>> 28 % 16), hexChar (w >>> 24 % 16), hexChar (w >>> 20 % 16),
   hexChar (w >>> 16 % 16), hexChar (w >>> 12 % 16), hexChar (w >>> 8 % 16),
   hexChar (w >>> 4 % 16), hexChar (w % 16)]

/-- Hex digest characters of a SHA-256 digest. -/
def sha256HexChars (msg : List Nat) : List Char :=
  ((sha256Words msg).map wordHexChars).foldr (· ++ ·) []

/-- UTF-8 encoding of a character, as in Node's default string hashing. -/
def utf8Bytes (c : Char) : List Nat :=
  let n := c.toNat
  if n < 0x80 then [n]
  else if n < 0x800 then [0xC0 ||| (n >>> 6), 0x80 ||| (n &&& 0x3F)]
  else if n < 0x10000 then
    [0xE0 ||| (n >>> 12), 0x80 ||| ((n >>> 6) &&& 0x3F), 0x80 ||| (n &&& 0x3F)]
  else
    [0xF0 ||| (n >>> 18), 0x80 ||| ((n >>> 12) &&& 0x3F), 0x80 ||| ((n >>> 6) &&& 0x3F),
     0x80 ||| (n &&& 0x3F)]

/-- UTF-8 bytes of a string. -/
def strBytes (s : String) : List Nat := (s.data.map utf8Bytes).foldr (· ++ ·) []

/-- `crypto.createHash('sha256').update(s).digest('hex')`, as a character list. -/
def sha256hex (s : String) : List Char := sha256HexChars (strBytes s)

/-- Value of a hex digit character, as accepted by `parseInt(_, 16)`. -/
def hexVal (c : Char) : Option Nat :=
  if 48 ≤ c.toNat ∧ c.toNat ≤ 57 then some (c.toNat - 48)
  else if 97 ≤ c.toNat ∧ c.toNat ≤ 102 then some (c.toNat - 87)
  else if 65 ≤ c.toNat ∧ c.toNat ≤ 70 then some (c.toNat - 55)
  else none

/-- `parseInt(s, 16)`: accumulate hex digits, stopping at the first non-digit. -/
def parseHexAux : List Char → Nat → Nat
  | [], acc => acc
  | c :: cs, acc =>
    match hexVal c with
    | some d => parseHexAux cs (16 * acc + d)
    | none => acc

def parseHex (cs : List Char) : Nat := parseHexAux cs 0

/-- `deterministicRandom` from the source: hash `"{server}:{client}:{nonce}"`,
parse the first 8 hex digest characters, divide by 0xffffffff. -/
def deterministicRandom (serverSeed clientSeed : String) (nonce : Nat) : ℚ :=
  let seedData := serverSeed ++ ":" ++ clientSeed ++ ":" ++ toString nonce
  let hash := sha256hex seedData
  (parseHex (hash.take 8) : ℚ) / 0xffffffff

/-- `calculatePath`: one left/right decision per row; row `i` uses nonce `nonce + i`. -/
def calculatePath (serverSeed clientSeed : String) (nonce rows : Nat) : List Nat :=
  (List.range rows).map fun i =>
    if deterministicRandom serverSeed clientSeed (nonce + i) < (0.5 : ℚ) then 0 else 1

/-- The signed offset accumulated over the path: −1 per LEFT (0), +1 per RIGHT. -/
def pathPosition (path : List Nat) : Int :=
  path.foldl (fun position direction => position + if direction = 0 then -1 else 1) 0

/-- `calculateFinalBin`: normalize the offset, scale by `17 / (rows * 2)`,
floor, and cap at `totalBins - 1 = 16`. -/
def calculateFinalBin (path : List Nat) : Int :=
  let normalizedPosition : Int := pathPosition path + path.length
  let scaleFactor : ℚ := 17 / ((path.length : ℚ) * 2)
  min ⌊(normalizedPosition : ℚ) * scaleFactor⌋ 16

/-- The risk tiers of the game. -/
inductive RiskMode where
  | low
  | medium
  | high
deriving DecidableEq

/-- The fixed per-tier multiplier tables (identical in the engine and the UI service). -/
def MULTIPLIERS : RiskMode → List ℚ
  | .low => [1.5, 1.2, 1.1, 1, 0.9, 0.8, 0.7, 0.6, 0.5, 0.6, 0.7, 0.8, 0.9, 1, 1.1, 1.2, 1.5]
  | .medium => [5, 3, 2, 1.5, 1, 0.5, 0.3, 0.2, 0.1, 0.2, 0.3, 0.5, 1, 1.5, 2, 3, 5]
  | .high => [110, 41, 10, 5, 3, 2, 1.5, 0.5, 0.3, 0.5, 1.5, 2, 3, 5, 10, 41, 110]

structure GameOptions where
  rows : Nat
  riskMode : RiskMode
deriving DecidableEq

structure ProvablyFairResult where
  clientSeed : String
  serverSeed : String
  hashedServerSeed : String
  nonce : Nat
  gameResult : Int
  path : List Nat
  finalMultiplier : ℚ
deriving DecidableEq

/-- `hashServerSeed`: hex SHA-256 commitment of the server seed. -/
def hashServerSeed (serverSeed : String) : String := String.mk (sha256hex serverSeed)

/-- The clamped index into the multiplier table:
`Math.min(Math.max(0, finalBin), multipliers.length - 1)`. -/
def multiplierIndex (finalBin : Int) (tableLength : Nat) : Int :=
  min (max 0 finalBin) ((tableLength : Int) - 1)

def calculateGameResult (serverSeed clientSeed : String) (nonce : Nat)
    (options : GameOptions) : ProvablyFairResult :=
  let path := calculatePath serverSeed clientSeed nonce options.rows
  let finalBin := calculateFinalBin path
  let multipliers := MULTIPLIERS options.riskMode
  let finalMultiplier := multipliers.getD (multiplierIndex finalBin multipliers.length).toNat 0
  { clientSeed := clientSeed
    serverSeed := serverSeed
    hashedServerSeed := hashServerSeed serverSeed
    nonce := nonce
    gameResult := finalBin
    path := path
    finalMultiplier := finalMultiplier }

/-- Decimal digit character. -/
def decDigitChar (d : Nat) : Char := Char.ofNat (48 + d)

/-- Decimal rendering of a natural number, as JavaScript renders integers. -/
def natChars (n : Nat) : List Char :=
  if h : n < 10 then [decDigitChar n]
  else natChars (n / 10) ++ [decDigitChar (n % 10)]
termination_by n
decreasing_by exact Nat.div_lt_self (by omega) (by omega)

/-- Comma-separated decimal rendering of a list, as inside `JSON.stringify` of an array. -/
def renderCSV : List Nat → List Char
  | [] => []
  | [n] => natChars n
  | n :: m :: rest => natChars n ++ ',' :: renderCSV (m :: rest)

/-- `JSON.stringify` of an array of natural numbers. -/
def jsonStringifyNats (l : List Nat) : List Char := '[' :: (renderCSV l ++ [']'])

/-- `verifyGameResult`: recompute and compare bin, multiplier and serialized path. -/
def verifyGameResult (serverSeed clientSeed : String) (nonce : Nat) (options : GameOptions)
    (reportedResult : ProvablyFairResult) : Bool :=
  let expectedResult := calculateGameResult serverSeed clientSeed nonce options
  expectedResult.gameResult == reportedResult.gameResult &&
  decide (expectedResult.finalMultiplier = reportedResult.finalMultiplier) &&
  jsonStringifyNats expectedResult.path == jsonStringifyNats reportedResult.path

/-- Parse a comma-separated run of decimal digits, with `acc` the digits read so far. -/
def parseGo : List Char → Nat → List Nat
  | [], acc => [acc]
  | ch :: cs, acc =>
    if ch = ',' then acc :: parseGo cs 0 else parseGo cs (10 * acc + (ch.toNat - 48))

/-- Left inverse of `renderCSV`. -/
def parseCSV (cs : List Char) : List Nat :=
  if cs = [] then [] else parseGo cs 0

/-- JS `a <= b` on possibly-undefined/NaN numbers: false when either side is not a number. -/
def jsLe (a b : Option ℚ) : Bool :=
  match a with
  | none => false
  | some x =>
    match b with
    | none => false
    | some y => decide (x ≤ y)

/-- JS `a > b`: false when either side is undefined/NaN. -/
def jsGt (a b : Option ℚ) : Bool :=
  match a with
  | none => false
  | some x =>
    match b with
    | none => false
    | some y => decide (y < x)

def jsAdd (a b : Option ℚ) : Option ℚ :=
  match a with
  | none => none
  | some x =>
    match b with
    | none => none
    | some y => some (x + y)

def jsSub (a b : Option ℚ) : Option ℚ :=
  match a with
  | none => none
  | some x =>
    match b with
    | none => none
    | some y => some (x - y)

def jsMul (a b : Option ℚ) : Option ℚ :=
  match a with
  | none => none
  | some x =>
    match b with
    | none => none
    | some y => some (x * y)

/-- Per-connection server state, as stored in the `userStates` map. -/
structure UserState where
  serverSeed : String
  clientSeed : String
  nonce : Nat
  balance : Option ℚ
deriving DecidableEq

/-- The payload of a `game:play` socket message; `none` models a missing field. -/
structure PlayData where
  betAmount : Option ℚ
  riskMode : Option String
  rows : Option Nat
deriving DecidableEq

/-- Lookup into the `MULTIPLIERS` object by riskMode string. -/
def riskFromString : String → Option RiskMode
  | "low" => some RiskMode.low
  | "medium" => some RiskMode.medium
  | "high" => some RiskMode.high
  | _ => none

/-- JS `rows || 16`: undefined and 0 are falsy. -/
def effRows : Option Nat → Nat
  | none => 16
  | some r => if r = 0 then 16 else r

/-- JS `riskMode || 'medium'`: undefined and the empty string are falsy. -/
def effRisk : Option String → String
  | none => "medium"
  | some s => if s = "" then "medium" else s

/-- Observable outcome of the `game:play` handler: an emitted error, an uncaught
exception (unknown risk tier), or an emitted result. -/
inductive PlayResult where
  | errorEmitted (message : String)
  | thrown
  | resolved (result : ProvablyFairResult) (winAmount : Option ℚ) (newBalance : Option ℚ)
deriving DecidableEq

def PlayResult.isResolved : PlayResult → Bool
  | .resolved _ _ _ => true
  | _ => false

/-- The `game:play` handler: validate bet, derive the outcome, update balance and nonce. -/
def playHandler (st : UserState) (data : PlayData) : PlayResult × UserState :=
  if jsLe data.betAmount (some 0) || jsGt data.betAmount st.balance then
    (.errorEmitted "Invalid bet amount or insufficient balance", st)
  else
    match riskFromString (effRisk data.riskMode) with
    | none => (.thrown, st)
    | some riskMode =>
      let gameOptions : GameOptions := { rows := effRows data.rows, riskMode := riskMode }
      let result := calculateGameResult st.serverSeed st.clientSeed st.nonce gameOptions
      let winAmount := jsMul data.betAmount (some result.finalMultiplier)
      let newBalance := jsAdd (jsSub st.balance data.betAmount) winAmount
      (.resolved result winAmount newBalance,
        { st with balance := newBalance, nonce := st.nonce + 1 })

/-- The `game:new-server-seed` handler: reveal the old seed, install a fresh one,
reset the nonce. -/
def newServerSeedHandler (st : UserState) (freshSeed : String) : String × UserState :=
  (st.serverSeed, { st with serverSeed := freshSeed, nonce := 0 })

/-- The `game:new-client-seed` handler: `data.clientSeed || generateClientSeed()`,
reset the nonce. -/
def newClientSeedHandler (st : UserState) (provided : Option String)
    (freshSeed : String) : UserState :=
  let newSeed :=
    match provided with
    | none => freshSeed
    | some s => if s = "" then freshSeed else s
  { st with clientSeed := newSeed, nonce := 0 }

/-- A session event; fresh seeds stand for the values drawn from the entropy source. -/
inductive GameEvent where
  | play (data : PlayData)
  | newServerSeed (freshSeed : String)
  | newClientSeed (provided : Option String) (freshSeed : String)
deriving DecidableEq

def stepEvent (st : UserState) : GameEvent → UserState
  | .play data => (playHandler st data).2
  | .newServerSeed freshSeed => (newServerSeedHandler st freshSeed).2
  | .newClientSeed provided freshSeed => newClientSeedHandler st provided freshSeed

/-- Whether a play request passes validation and reaches the derivation. -/
def playResolves (st : UserState) (data : PlayData) : Bool :=
  !(jsLe data.betAmount (some 0) || jsGt data.betAmount st.balance) &&
    (riskFromString (effRisk data.riskMode)).isSome

/-- The (serverSeed, clientSeed, nonce) triples consumed by resolved plays of a trace. -/
def consumedTriples (st : UserState) : List GameEvent → List (String × String × Nat)
  | [] => []
  | e :: es =>
    (match e with
     | .play data =>
       if playResolves st data then [(st.serverSeed, st.clientSeed, st.nonce)] else []
     | _ => []) ++ consumedTriples (stepEvent st e) es

/-- SHA-256 test vector: digest of "abc". -/
theorem sha256hex_abc :
    sha256hex "abc" =
      "ba7816bf8f01cfea414140de5dae2223b00361a396177a9cb410ff61f20015ad".data := by
  decide

/-- SHA-256 test vector: digest of the empty string. -/
theorem sha256hex_empty :
    sha256hex "" =
      "e3b0c44298fc1c149afbf4c8996fb92427ae41e4649b934ca495991b7852b855".data := by
  decide

/-- Characters produced by `hexChar` on nibbles parse back to their value. -/
theorem hexVal_hexChar (d : Nat) (hd : d < 16) : hexVal (hexChar d) = some d := by
  interval_cases d <;> decide

theorem mem_foldr_append {α : Type} (L : List (List α)) (a : α) :
    a ∈ L.foldr (· ++ ·) [] ↔ ∃ l ∈ L, a ∈ l := by
  induction L with
  | nil => simp
  | cons x xs ih => simp [ih]

/-- Every character of a hex digest is a hex digit. -/
theorem sha256HexChars_hex (msg : List Nat) (c : Char) (hc : c ∈ sha256HexChars msg) :
    ∃ d, d < 16 ∧ hexVal c = some d := by
  rw [sha256HexChars, mem_foldr_append] at hc
  obtain ⟨l, hl, hcl⟩ := hc
  rw [List.mem_map] at hl
  obtain ⟨w, _, rfl⟩ := hl
  simp only [wordHexChars, List.mem_cons, List.not_mem_nil, or_false] at hcl
  rcases hcl with rfl | rfl | rfl | rfl | rfl | rfl | rfl | rfl <;>
    exact ⟨_ % 16, Nat.mod_lt _ (by norm_num), hexVal_hexChar _ (Nat.mod_lt _ (by norm_num))⟩

/-- Parsing a string of hex digits stays below `(acc+1) * 16 ^ length`. -/
theorem parseHexAux_lt (cs : List Char) (acc : Nat)
    (h : ∀ c ∈ cs, ∃ d, d < 16 ∧ hexVal c = some d) :
    parseHexAux cs acc < (acc + 1) * 16 ^ cs.length := by
  induction cs generalizing acc with
  | nil => simp [parseHexAux]
  | cons c cs ih =>
    obtain ⟨d, hd16, hd⟩ := h c (List.mem_cons_self c cs)
    have hrest : ∀ x ∈ cs, ∃ d, d < 16 ∧ hexVal x = some d :=
      fun x hx => h x (List.mem_cons_of_mem c hx)
    rw [parseHexAux, hd]
    calc parseHexAux cs (16 * acc + d) < (16 * acc + d + 1) * 16 ^ cs.length := ih _ hrest
      _ ≤ ((acc + 1) * 16) * 16 ^ cs.length := by
          apply Nat.mul_le_mul_right
          omega
      _ = (acc + 1) * 16 ^ (c :: cs).length := by
          rw [List.length_cons, pow_succ]
          ring

/-- The first 8 hex-digest characters parse to a 32-bit value. -/
theorem parseHex_take8_le (msg : List Nat) :
    parseHex ((sha256HexChars msg).take 8) ≤ 4294967295 := by
  have hlt : parseHex ((sha256HexChars msg).take 8) <
      1 * 16 ^ ((sha256HexChars msg).take 8).length := by
    apply parseHexAux_lt
    intro c hc
    exact sha256HexChars_hex msg c (List.take_subset 8 _ hc)
  have hlen : ((sha256HexChars msg).take 8).length ≤ 8 := by
    simp [List.length_take]
  have hpow : 16 ^ ((sha256HexChars msg).take 8).length ≤ 16 ^ 8 :=
    Nat.pow_le_pow_right (by norm_num) hlen
  omega

/-- C2: the unit-interval sample equals the first 8 hex characters of the SHA-256 hex
digest of the exact string "{secret}:{public}:{counter}", parsed as an unsigned
big-endian 32-bit integer and divided by 0xffffffff; it lies in [0, 1], and equals 1
exactly when that 32-bit integer is the maximal 0xffffffff (the edge is not clamped). -/
theorem deterministicRandom_spec (s c : String) (n : Nat) :
    deterministicRandom s c n =
      (parseHex ((sha256hex (s ++ ":" ++ c ++ ":" ++ toString n)).take 8) : ℚ) / 4294967295 ∧
    0 ≤ deterministicRandom s c n ∧ deterministicRandom s c n ≤ 1 ∧
    (deterministicRandom s c n = 1 ↔
      parseHex ((sha256hex (s ++ ":" ++ c ++ ":" ++ toString n)).take 8) = 4294967295) := by
  have hle : parseHex ((sha256hex (s ++ ":" ++ c ++ ":" ++ toString n)).take 8) ≤ 4294967295 :=
    parseHex_take8_le _
  refine ⟨rfl, ?_, ?_, ?_⟩
  · exact div_nonneg (Nat.cast_nonneg _) (by norm_num)
  · show (parseHex _ : ℚ) / 4294967295 ≤ 1
    rw [div_le_one (by norm_num)]
    exact_mod_cast hle
  · show (parseHex _ : ℚ) / 4294967295 = 1 ↔ _
    rw [div_eq_one_iff_eq (by norm_num : (4294967295 : ℚ) ≠ 0)]
    constructor
    · intro h; exact_mod_cast h
    · intro h; exact_mod_cast congrArg (Nat.cast : Nat → ℚ) h

theorem foldl_step_bounds (path : List Nat) (p : Int) :
    p - path.length ≤
        path.foldl (fun position direction => position + if direction = 0 then -1 else 1) p ∧
    path.foldl (fun position direction => position + if direction = 0 then -1 else 1) p ≤
        p + path.length := by
  induction path generalizing p with
  | nil => simp
  | cons d t ih =>
    have h := ih (p + if d = 0 then -1 else 1)
    have hs : (if d = 0 then (-1 : Int) else 1) = -1 ∨ (if d = 0 then (-1 : Int) else 1) = 1 := by
      split <;> simp
    simp only [List.foldl_cons, List.length_cons]
    push_cast
    rcases hs with hs | hs <;> rw [hs] at h ⊢ <;>
      exact ⟨by linarith [h.1], by linarith [h.2]⟩

theorem pathPosition_bounds (path : List Nat) :
    -(path.length : Int) ≤ pathPosition path ∧ pathPosition path ≤ path.length := by
  have h := foldl_step_bounds path 0
  rw [pathPosition]
  omega

theorem pathPosition_count (path : List Nat) (h : ∀ d ∈ path, d = 0 ∨ d = 1) :
    pathPosition path = (path.count 1 : Int) - (path.count 0 : Int) := by
  rw [pathPosition]
  have key : ∀ (l : List Nat) (p : Int), (∀ d ∈ l, d = 0 ∨ d = 1) →
      l.foldl (fun position direction => position + if direction = 0 then -1 else 1) p =
        p + (l.count 1 : Int) - (l.count 0 : Int) := by
    intro l
    induction l with
    | nil => intro p _; simp
    | cons d t ih =>
      intro p hd
      have ht : ∀ x ∈ t, x = 0 ∨ x = 1 := fun x hx => hd x (List.mem_cons_of_mem d hx)
      have ih' := fun p => ih p ht
      rcases hd d (List.mem_cons_self d t) with rfl | rfl <;>
        simp [List.foldl_cons, ih', List.count_cons] <;> push_cast <;> omega
  have := key path 0 h
  omega

/-- C4: for every non-empty path of 0/1 decisions, the terminal bin equals
floor((offset + rowCount) * (17 / (rowCount * 2))) clamped to [0, 16], where offset
adds -1 per LEFT (0) and +1 per RIGHT (1); consequently the bin always lies in [0, 16],
in particular for every possible path of length 8, 12 or 16. -/
theorem calculateFinalBin_spec (path : List Nat) (hne : path ≠ [])
    (hb : ∀ d ∈ path, d = 0 ∨ d = 1) :
    calculateFinalBin path =
      max 0 (min ⌊((path.count 1 : ℚ) - (path.count 0 : ℚ) + (path.length : ℚ)) *
        (17 / ((path.length : ℚ) * 2))⌋ 16) ∧
    0 ≤ calculateFinalBin path ∧ calculateFinalBin path ≤ 16 := by
  have hpos := pathPosition_bounds path
  have hnn : (0 : ℚ) ≤ ((pathPosition path + path.length : Int) : ℚ) := by
    have h0 : (0 : Int) ≤ pathPosition path + path.length := by omega
    exact_mod_cast h0
  have hfac : (0 : ℚ) ≤ 17 / ((path.length : ℚ) * 2) := by positivity
  have hfloor : 0 ≤ ⌊((pathPosition path + path.length : Int) : ℚ) *
      (17 / ((path.length : ℚ) * 2))⌋ :=
    Int.floor_nonneg.2 (mul_nonneg hnn hfac)
  have hdef : calculateFinalBin path =
      min ⌊((pathPosition path + path.length : Int) : ℚ) * (17 / ((path.length : ℚ) * 2))⌋ 16 := by
    rw [calculateFinalBin]
  have hmin0 : 0 ≤ min ⌊((pathPosition path + path.length : Int) : ℚ) *
      (17 / ((path.length : ℚ) * 2))⌋ 16 := le_min hfloor (by norm_num)
  have hcast : ((path.count 1 : ℚ) - (path.count 0 : ℚ) + (path.length : ℚ)) =
      ((pathPosition path + path.length : Int) : ℚ) := by
    rw [pathPosition_count path hb]
    push_cast
    ring
  refine ⟨?_, by rw [hdef]; exact hmin0, by rw [hdef]; exact min_le_right _ _⟩
  rw [hdef, hcast, max_eq_right hmin0]

theorem decDigitChar_spec (d : Nat) (hd : d < 10) :
    decDigitChar d ≠ ',' ∧ (decDigitChar d).toNat - 48 = d := by
  interval_cases d <;> exact ⟨by decide, by decide⟩

theorem natChars_ne_nil (n : Nat) : natChars n ≠ [] := by
  rw [natChars]
  split <;> simp

theorem parseGo_natChars (n : Nat) :
    ∀ rest : List Char, parseGo (natChars n ++ rest) 0 = parseGo rest n := by
  induction n using Nat.strong_induction_on with
  | _ n ih =>
    intro rest
    by_cases h : n < 10
    · rw [natChars, dif_pos h]
      obtain ⟨hcomma, hval⟩ := decDigitChar_spec n h
      simp [parseGo, hcomma, hval]
    · rw [natChars, dif_neg h, List.append_assoc]
      rw [ih (n / 10) (Nat.div_lt_self (by omega) (by omega)) ([decDigitChar (n % 10)] ++ rest)]
      obtain ⟨hcomma, hval⟩ := decDigitChar_spec (n % 10) (Nat.mod_lt _ (by omega))
      simp only [List.cons_append, List.nil_append, parseGo, if_neg hcomma, hval]
      congr 1
      omega

theorem renderCSV_ne_nil (n : Nat) (rest : List Nat) : renderCSV (n :: rest) ≠ [] := by
  cases rest with
  | nil => exact natChars_ne_nil n
  | cons m t =>
    rw [renderCSV]
    intro hcontra
    exact natChars_ne_nil n (List.append_eq_nil.mp hcontra).1

theorem parseCSV_renderCSV (l : List Nat) : parseCSV (renderCSV l) = l := by
  induction l with
  | nil => rfl
  | cons n rest ih =>
    cases rest with
    | nil =>
      rw [renderCSV, parseCSV, if_neg (natChars_ne_nil n)]
      have h := parseGo_natChars n []
      rw [List.append_nil] at h
      rw [h]
      rfl
    | cons m t =>
      rw [renderCSV, parseCSV, if_neg (by
        intro hcontra
        exact natChars_ne_nil n (List.append_eq_nil.mp hcontra).1)]
      rw [parseGo_natChars n (',' :: renderCSV (m :: t))]
      rw [parseGo, if_pos rfl]
      rw [parseCSV, if_neg (renderCSV_ne_nil m t)] at ih
      rw [ih]

theorem renderCSV_injective (l₁ l₂ : List Nat) (h : renderCSV l₁ = renderCSV l₂) : l₁ = l₂ := by
  rw [← parseCSV_renderCSV l₁, ← parseCSV_renderCSV l₂, h]

theorem jsonStringifyNats_injective (l₁ l₂ : List Nat)
    (h : jsonStringifyNats l₁ = jsonStringifyNats l₂) : l₁ = l₂ := by
  rw [jsonStringifyNats, jsonStringifyNats] at h
  exact renderCSV_injective _ _ (List.append_cancel_right (List.cons_injective h))

/-- Verification succeeds exactly when bin, multiplier and path all match. -/
theorem verify_eq_true_iff (s c : String) (n : Nat) (o : GameOptions)
    (r : ProvablyFairResult) :
    verifyGameResult s c n o r = true ↔
      ((calculateGameResult s c n o).gameResult = r.gameResult ∧
       (calculateGameResult s c n o).finalMultiplier = r.finalMultiplier ∧
       (calculateGameResult s c n o).path = r.path) := by
  rw [verifyGameResult]
  simp only [Bool.and_eq_true, beq_iff_eq, decide_eq_true_eq]
  constructor
  · rintro ⟨⟨h1, h2⟩, h3⟩
    exact ⟨h1, h2, jsonStringifyNats_injective _ _ h3⟩
  · rintro ⟨h1, h2, h3⟩
    exact ⟨⟨h1, h2⟩, by rw [h3]⟩

/-- C1: `verifyGameResult` returns true iff the recomputed bin equals the reported
`gameResult`, the recomputed multiplier equals the reported `finalMultiplier` and the
recomputed path equals the reported `path` element-wise (same length and order); in
particular it accepts the exact output of `calculateGameResult` on the same inputs, and
altering any of those three fields makes it return false. Stated for positive row
counts, the domain of the board configurations. -/
theorem verifyGameResult_spec (s c : String) (n : Nat) (o : GameOptions)
    (r : ProvablyFairResult) (hrows : 0 < o.rows) :
    (verifyGameResult s c n o r = true ↔
      ((calculateGameResult s c n o).gameResult = r.gameResult ∧
       (calculateGameResult s c n o).finalMultiplier = r.finalMultiplier ∧
       (calculateGameResult s c n o).path = r.path)) ∧
    verifyGameResult s c n o (calculateGameResult s c n o) = true ∧
    (((calculateGameResult s c n o).gameResult ≠ r.gameResult ∨
      (calculateGameResult s c n o).finalMultiplier ≠ r.finalMultiplier ∨
      (calculateGameResult s c n o).path ≠ r.path) →
      verifyGameResult s c n o r = false) := by
  refine ⟨verify_eq_true_iff s c n o r, ?_, ?_⟩
  · rw [verify_eq_true_iff]
    exact ⟨rfl, rfl, rfl⟩
  · intro hne
    cases hv : verifyGameResult s c n o r with
    | false => rfl
    | true =>
      obtain ⟨h1, h2, h3⟩ := (verify_eq_true_iff s c n o r).mp hv
      tauto

/-- C3: for rowCount > 0 the derived path has exactly rowCount binary decisions, and
decision `i` is RIGHT (1) iff the sample at nonce `counter + i` is at least 0.5, else
LEFT (0). -/
theorem calculatePath_spec (s c : String) (n rows : Nat) (hrows : 0 < rows) :
    (calculatePath s c n rows).length = rows ∧
    ∀ i, i < rows → (calculatePath s c n rows).getD i 0 =
      if (0.5 : ℚ) ≤ deterministicRandom s c (n + i) then 1 else 0 := by
  constructor
  · simp [calculatePath]
  · intro i hi
    have hlen : i < (calculatePath s c n rows).length := by simp [calculatePath, hi]
    rw [List.getD_eq_getElem _ _ hlen]
    simp only [calculatePath, List.getElem_map, List.getElem_range]
    rcases lt_or_le (deterministicRandom s c (n + i)) (0.5 : ℚ) with hlt | hle
    · rw [if_pos hlt, if_neg (not_le.mpr hlt)]
    · rw [if_neg (not_lt.mpr hle), if_pos hle]

/-- C5: payout resolution clamps any integer bin index into `[0, table.length - 1]`
before indexing, so it always returns an entry of the selected tier's table and the
out-of-bounds default of the lookup is unreachable; `calculateGameResult` resolves its
multiplier through exactly this clamped lookup. -/
theorem multiplierIndex_spec (binIndex : Int) (riskMode : RiskMode) (s c : String)
    (n : Nat) (o : GameOptions) :
    (0 ≤ multiplierIndex binIndex (MULTIPLIERS riskMode).length ∧
    multiplierIndex binIndex (MULTIPLIERS riskMode).length ≤
      ((MULTIPLIERS riskMode).length : Int) - 1 ∧
    (MULTIPLIERS riskMode).getD
      (multiplierIndex binIndex (MULTIPLIERS riskMode).length).toNat 0 ∈
      MULTIPLIERS riskMode) ∧
    (calculateGameResult s c n o).finalMultiplier =
      (MULTIPLIERS o.riskMode).getD
        (multiplierIndex (calculateFinalBin (calculatePath s c n o.rows))
          (MULTIPLIERS o.riskMode).length).toNat 0 := by
  refine ⟨?_, rfl⟩
  have hlen : (MULTIPLIERS riskMode).length = 17 := by cases riskMode <;> rfl
  have h0 : 0 ≤ multiplierIndex binIndex (MULTIPLIERS riskMode).length := by
    rw [multiplierIndex]
    exact le_min (le_max_left 0 binIndex) (by rw [hlen]; norm_num)
  have h16 : multiplierIndex binIndex (MULTIPLIERS riskMode).length ≤
      ((MULTIPLIERS riskMode).length : Int) - 1 := by
    rw [multiplierIndex]
    exact min_le_right _ _
  refine ⟨h0, h16, ?_⟩
  have hidx : (multiplierIndex binIndex (MULTIPLIERS riskMode).length).toNat <
      (MULTIPLIERS riskMode).length := by
    rw [hlen] at h16 ⊢
    omega
  rw [List.getD_eq_getElem _ _ hidx]
  exact List.getElem_mem hidx

/-- C6: each risk tier's multiplier table has length exactly 17, is symmetric
(entry i equals entry 16 - i), and every entry is positive. -/
theorem MULTIPLIERS_integrity (riskMode : RiskMode) :
    (MULTIPLIERS riskMode).length = 17 ∧
    (∀ i, i ≤ 16 →
      (MULTIPLIERS riskMode).getD i 0 = (MULTIPLIERS riskMode).getD (16 - i) 0) ∧
    (∀ m ∈ MULTIPLIERS riskMode, 0 < m) := by
  refine ⟨by cases riskMode <;> rfl, ?_, ?_⟩
  · intro i hi
    cases riskMode <;> interval_cases i <;> rfl
  · intro m hm
    cases riskMode <;> fin_cases hm <;> norm_num

/-- C10: `verifyGameResult` depends only on the `gameResult`, `finalMultiplier` and
`path` fields of the reported result; two reports agreeing on those three fields get
the same verdict whatever their `clientSeed`, `serverSeed`, `hashedServerSeed` and
`nonce` fields are, so in particular the reported `hashedServerSeed` is never checked
against the hash of the server seed. -/
theorem verifyGameResult_ignores_seed_fields (s c : String) (n : Nat) (o : GameOptions)
    (r₁ r₂ : ProvablyFairResult) (h1 : r₁.gameResult = r₂.gameResult)
    (h2 : r₁.finalMultiplier = r₂.finalMultiplier) (h3 : r₁.path = r₂.path) :
    verifyGameResult s c n o r₁ = verifyGameResult s c n o r₂ := by
  simp only [verifyGameResult]
  rw [h1, h2, h3]

theorem playHandler_isResolved (st : UserState) (data : PlayData) :
    (playHandler st data).1.isResolved = playResolves st data := by
  rw [playHandler, playResolves]
  split
  · rename_i hcond
    rw [hcond]
    rfl
  · rename_i hcond
    rw [Bool.not_eq_true] at hcond
    rw [hcond]
    cases hrm : riskFromString (effRisk data.riskMode) <;> simp [hrm, PlayResult.isResolved]

theorem playHandler_nonce (st : UserState) (data : PlayData) :
    (playHandler st data).2.nonce = if playResolves st data then st.nonce + 1 else st.nonce := by
  rw [playHandler, playResolves]
  split
  · rename_i hcond
    rw [hcond]
    rfl
  · rename_i hcond
    rw [Bool.not_eq_true] at hcond
    rw [hcond]
    cases hrm : riskFromString (effRisk data.riskMode) <;> simp [hrm]

theorem playHandler_seeds (st : UserState) (data : PlayData) :
    (playHandler st data).2.serverSeed = st.serverSeed ∧
    (playHandler st data).2.clientSeed = st.clientSeed := by
  rw [playHandler]
  split
  · exact ⟨rfl, rfl⟩
  · cases hrm : riskFromString (effRisk data.riskMode) <;> simp [hrm]

theorem playHandler_not_resolved_state (st : UserState) (data : PlayData)
    (h : playResolves st data = false) : (playHandler st data).2 = st := by
  rw [playResolves] at h
  rw [playHandler]
  split
  · rfl
  · rename_i hcond
    rw [Bool.not_eq_true] at hcond
    rw [hcond] at h
    simp only [Bool.not_false, Bool.true_and] at h
    cases hrm : riskFromString (effRisk data.riskMode)
    · rfl
    · rw [hrm] at h
      simp at h

/-- Every triple consumed by a run of plays has nonce at least the starting nonce. -/
theorem consumed_plays_lb (plays : List PlayData) :
    ∀ (st : UserState) (t : String × String × Nat),
      t ∈ consumedTriples st (plays.map GameEvent.play) → st.nonce ≤ t.2.2 := by
  induction plays with
  | nil => intro st t ht; simp [consumedTriples] at ht
  | cons d ds ih =>
    intro st t ht
    rw [List.map_cons, consumedTriples, List.mem_append] at ht
    have hstep : st.nonce ≤ (stepEvent st (GameEvent.play d)).nonce := by
      show st.nonce ≤ (playHandler st d).2.nonce
      rw [playHandler_nonce]
      split <;> omega
    rcases ht with ht | ht
    · split at ht <;> simp at ht
      rw [ht]
    · exact le_trans hstep (ih _ t ht)

/-- In a trace of plays only, no (serverSeed, clientSeed, nonce) triple repeats. -/
theorem consumed_plays_nodup (plays : List PlayData) :
    ∀ st : UserState, (consumedTriples st (plays.map GameEvent.play)).Nodup := by
  induction plays with
  | nil => intro st; simp [consumedTriples]
  | cons d ds ih =>
    intro st
    rw [List.map_cons, consumedTriples]
    cases hres : playResolves st d
    · simp only [hres, if_neg Bool.false_ne_true]
      simpa using ih (stepEvent st (GameEvent.play d))
    · rw [if_pos rfl, List.singleton_append, List.nodup_cons]
      constructor
      · intro hmem
        have hlb := consumed_plays_lb ds (stepEvent st (GameEvent.play d)) _ hmem
        have hnonce : (stepEvent st (GameEvent.play d)).nonce = st.nonce + 1 := by
          show (playHandler st d).2.nonce = st.nonce + 1
          rw [playHandler_nonce, hres]
          rfl
        rw [hnonce] at hlb
        simp at hlb
      · exact ih (stepEvent st (GameEvent.play d))

theorem cex_hash : parseHex ((sha256hex ("s" ++ ":" ++ "c" ++ ":" ++ toString 0)).take 8) =
    2805365575 := by
  decide

theorem cex_random : deterministicRandom "s" "c" 0 = (2805365575 : ℚ) / 4294967295 := by
  rw [deterministicRandom, cex_hash]
  norm_num

theorem cex_path : calculatePath "s" "c" 0 1 = [1] := by
  have hr : List.range 1 = [0] := rfl
  rw [calculatePath, hr, List.map_cons, List.map_nil, Nat.add_zero]
  rw [if_neg (by rw [cex_random]; norm_num)]

theorem cex_bin : calculateFinalBin [1] = 16 := by
  have hpp : pathPosition [1] = 1 := by decide
  rw [calculateFinalBin, hpp]
  norm_num

theorem cex_mult :
    (calculateGameResult "s" "c" 0 ⟨1, RiskMode.medium⟩).finalMultiplier = 5 := by
  rw [calculateGameResult]
  simp only [cex_path, cex_bin]
  decide

theorem cex_state1 :
    (playHandler { serverSeed := "s", clientSeed := "c", nonce := 0, balance := some 1000 }
        { betAmount := some 10, riskMode := some "medium", rows := some 1 }).2 =
      { serverSeed := "s", clientSeed := "c", nonce := 1, balance := some 1040 } := by
  rw [playHandler]
  rw [if_neg (by decide)]
  have hrisk : riskFromString (effRisk (some "medium")) = some RiskMode.medium := by decide
  rw [hrisk]
  have heffrows : effRows (some 1) = 1 := by decide
  simp only [heffrows]
  have hbal : jsAdd (jsSub (some 1000) (some 10))
      (jsMul (some 10)
        (some ((calculateGameResult "s" "c" 0 ⟨1, RiskMode.medium⟩).finalMultiplier))) =
      some 1040 := by
    rw [cex_mult]
    simp only [jsMul, jsSub, jsAdd]
    norm_num
  simp only [hbal]

/-- C7 (counterexample): a concrete session trace that reuses a counter within one
(serverSeed, clientSeed) pairing: play at nonce 0, re-submit the current client seed
"c" (the handler resets the nonce to 0 even though the pairing is unchanged), then
play again at nonce 0 with the same seeds. -/
theorem counter_reuse_cex :
    ¬ (consumedTriples { serverSeed := "s", clientSeed := "c", nonce := 0, balance := some 1000 }
        [GameEvent.play { betAmount := some 10, riskMode := some "medium", rows := some 1 },
         GameEvent.newClientSeed (some "c") "f",
         GameEvent.play { betAmount := some 10, riskMode := some "medium", rows := some 1 }]).Nodup := by
  have h1 : playResolves
      { serverSeed := "s", clientSeed := "c", nonce := 0, balance := some 1000 }
      { betAmount := some 10, riskMode := some "medium", rows := some 1 } = true := by decide
  have h2 : playResolves
      { serverSeed := "s", clientSeed := "c", nonce := 0, balance := some 1040 }
      { betAmount := some 10, riskMode := some "medium", rows := some 1 } = true := by decide
  have hstep1 : stepEvent
      { serverSeed := "s", clientSeed := "c", nonce := 0, balance := some 1000 }
      (GameEvent.play { betAmount := some 10, riskMode := some "medium", rows := some 1 }) =
      { serverSeed := "s", clientSeed := "c", nonce := 1, balance := some 1040 } := cex_state1
  have hstep2 : stepEvent
      { serverSeed := "s", clientSeed := "c", nonce := 1, balance := some 1040 }
      (GameEvent.newClientSeed (some "c") "f") =
      { serverSeed := "s", clientSeed := "c", nonce := 0, balance := some 1040 } := by
    decide
  simp [consumedTriples, hstep1, hstep2, h1, h2]

/-- C7 (amended): a resolved play increments the counter by exactly 1 and leaves both
seeds unchanged; a server-seed rotation reveals the old secret seed, installs the fresh
one and resets the counter to 0; a client-seed change installs the provided seed (or
the fresh one when absent or empty) and resets the counter to 0; and within any
uninterrupted sequence of plays no (serverSeed, clientSeed, nonce) triple is consumed
twice. Across seed-change events, counter values can be reused on the same pairing,
because the handler resets the counter even when the submitted client seed equals the
current one. -/
theorem sessionStateMachine_spec (st : UserState) (data : PlayData)
    (freshSeed : String) (provided : Option String) (plays : List PlayData) :
    ((playHandler st data).2.nonce =
      if playResolves st data then st.nonce + 1 else st.nonce) ∧
    (playHandler st data).2.serverSeed = st.serverSeed ∧
    (playHandler st data).2.clientSeed = st.clientSeed ∧
    (newServerSeedHandler st freshSeed).1 = st.serverSeed ∧
    (newServerSeedHandler st freshSeed).2.serverSeed = freshSeed ∧
    (newServerSeedHandler st freshSeed).2.nonce = 0 ∧
    (newServerSeedHandler st freshSeed).2.clientSeed = st.clientSeed ∧
    (newClientSeedHandler st provided freshSeed).clientSeed =
      (match provided with
       | none => freshSeed
       | some s => if s = "" then freshSeed else s) ∧
    (newClientSeedHandler st provided freshSeed).nonce = 0 ∧
    (newClientSeedHandler st provided freshSeed).serverSeed = st.serverSeed ∧
    (consumedTriples st (plays.map GameEvent.play)).Nodup :=
  ⟨playHandler_nonce st data, (playHandler_seeds st data).1, (playHandler_seeds st data).2,
    rfl, rfl, rfl, rfl, rfl, rfl, rfl, consumed_plays_nodup plays st⟩

/-- C8: a play request whose betAmount is a number at most 0, or exceeds the session's
numeric balance, is rejected before any derivation: the handler emits the error and
returns the state unchanged (counter and balance untouched, no outcome produced). -/
theorem playHandler_rejects_invalid_bet (st : UserState) (data : PlayData) (b : ℚ)
    (hb : data.betAmount = some b)
    (hreject : b ≤ 0 ∨ ∃ bal, st.balance = some bal ∧ bal < b) :
    playHandler st data =
      (PlayResult.errorEmitted "Invalid bet amount or insufficient balance", st) := by
  have hcond : (jsLe data.betAmount (some 0) || jsGt data.betAmount st.balance) = true := by
    rcases hreject with hle | ⟨bal, hbal, hlt⟩
    · rw [hb, Bool.or_eq_true]
      left
      simp [jsLe, hle]
    · rw [hb, hbal, Bool.or_eq_true]
      right
      simp [jsGt, hlt]
  rw [playHandler, if_pos hcond]

/-- C9 (amended): the play handler performs no input-type validation. A request with a
missing betAmount passes the bet check (JS comparisons against undefined are false) and
resolves: the counter is incremented and the balance becomes NaN. An unknown riskTier
makes the handler throw while reading `MULTIPLIERS[riskMode].length` (no rejection is
signaled, state unchanged), and a missing rowCount silently defaults to 16. -/
theorem playHandler_missing_validation (st : UserState) (rowsField : Option Nat) :
    (playHandler st { betAmount := none, riskMode := some "medium", rows := rowsField }).1 =
      PlayResult.resolved
        (calculateGameResult st.serverSeed st.clientSeed st.nonce
          { rows := effRows rowsField, riskMode := RiskMode.medium }) none none ∧
    (playHandler st { betAmount := none, riskMode := some "medium", rows := rowsField }).2 =
      { st with balance := none, nonce := st.nonce + 1 } ∧
    playHandler st { betAmount := none, riskMode := some "turbo", rows := rowsField } =
      (PlayResult.thrown, st) ∧
    effRows none = 16 := by
  have hsub : jsSub st.balance none = none := by cases st.balance <;> rfl
  have hbal : jsAdd (jsSub st.balance none) (jsMul none
      (some ((calculateGameResult st.serverSeed st.clientSeed st.nonce
        { rows := effRows rowsField, riskMode := RiskMode.medium }).finalMultiplier))) =
      none := by
    rw [hsub]
    rfl
  refine ⟨?_, ?_, ?_, rfl⟩
  · rw [playHandler, if_neg (by simp [jsLe, jsGt])]
    have hrisk : riskFromString (effRisk (some "medium")) = some RiskMode.medium := by decide
    rw [hrisk]
    simp only [hbal]
    rfl
  · rw [playHandler, if_neg (by simp [jsLe, jsGt])]
    have hrisk : riskFromString (effRisk (some "medium")) = some RiskMode.medium := by decide
    rw [hrisk]
    simp only [hbal]
  · rw [playHandler, if_neg (by simp [jsLe, jsGt])]
    have hrisk : riskFromString (effRisk (some "turbo")) = none := by decide
    rw [hrisk]

/-- C9 (counterexample): a play request with a missing betAmount is not rejected: it
resolves to an outcome and mutates the counter. -/
theorem missing_bet_not_rejected_cex :
    (playHandler { serverSeed := "s", clientSeed := "c", nonce := 0, balance := some 1000 }
        { betAmount := none, riskMode := some "medium", rows := some 1 }).1.isResolved = true ∧
    (playHandler { serverSeed := "s", clientSeed := "c", nonce := 0, balance := some 1000 }
        { betAmount := none, riskMode := some "medium", rows := some 1 }).2.nonce = 1 := by
  constructor <;> decide

theorem verifyGameResult_spec_witness :
    0 < (1 : Nat) ∧
    verifyGameResult "a" "b" 0 { rows := 1, riskMode := RiskMode.low }
      (calculateGameResult "a" "b" 0 { rows := 1, riskMode := RiskMode.low }) = true :=
  ⟨by decide,
    (verifyGameResult_spec "a" "b" 0 { rows := 1, riskMode := RiskMode.low }
      (calculateGameResult "a" "b" 0 { rows := 1, riskMode := RiskMode.low }) (by decide)).2.1⟩

theorem calculatePath_spec_witness :
    0 < (1 : Nat) ∧ (calculatePath "a" "b" 0 1).length = 1 :=
  ⟨by decide, (calculatePath_spec "a" "b" 0 1 (by decide)).1⟩

theorem calculateFinalBin_spec_witness :
    (([1] : List Nat) ≠ [] ∧ ∀ d ∈ ([1] : List Nat), d = 0 ∨ d = 1) ∧
    0 ≤ calculateFinalBin [1] ∧ calculateFinalBin [1] ≤ 16 :=
  ⟨⟨by decide, by decide⟩, (calculateFinalBin_spec [1] (by decide) (by decide)).2⟩

theorem playHandler_rejects_invalid_bet_witness :
    ({ betAmount := some 0, riskMode := some "medium", rows := some 1 } :
        PlayData).betAmount = some 0 ∧
    ((0 : ℚ) ≤ 0 ∨ ∃ bal,
      ({ serverSeed := "s", clientSeed := "c", nonce := 0, balance := some 1000 } :
        UserState).balance = some bal ∧ bal < 0) ∧
    playHandler { serverSeed := "s", clientSeed := "c", nonce := 0, balance := some 1000 }
        { betAmount := some 0, riskMode := some "medium", rows := some 1 } =
      (PlayResult.errorEmitted "Invalid bet amount or insufficient balance",
        { serverSeed := "s", clientSeed := "c", nonce := 0, balance := some 1000 }) :=
  ⟨rfl, Or.inl (by decide),
    playHandler_rejects_invalid_bet
      { serverSeed := "s", clientSeed := "c", nonce := 0, balance := some 1000 }
      { betAmount := some 0, riskMode := some "medium", rows := some 1 } 0 rfl
      (Or.inl (by decide))⟩

theorem verifyGameResult_ignores_seed_fields_witness :
    (⟨"x", "y", "z", 5, 3, [1], 7⟩ : ProvablyFairResult).gameResult =
      (⟨"x2", "y2", "z2", 9, 3, [1], 7⟩ : ProvablyFairResult).gameResult ∧
    verifyGameResult "a" "b" 0 ⟨1, RiskMode.low⟩
        (⟨"x", "y", "z", 5, 3, [1], 7⟩ : ProvablyFairResult) =
      verifyGameResult "a" "b" 0 ⟨1, RiskMode.low⟩
        (⟨"x2", "y2", "z2", 9, 3, [1], 7⟩ : ProvablyFairResult) :=
  ⟨rfl,
    verifyGameResult_ignores_seed_fields "a" "b" 0 ⟨1, RiskMode.low⟩
      ⟨"x", "y", "z", 5, 3, [1], 7⟩ ⟨"x2", "y2", "z2", 9, 3, [1], 7⟩ rfl rfl rfl⟩

end Plinko
